import Mathlib

/-!
Verification of `mythril/ethereum/util.py`: the version-pragma resolution
pipeline (lexical stripper, pragma parser, version resolver) and the public
entry points `extract_version` / `extract_binary`.

Texts are modelled as `List Char`.  External collaborators (the
`semantic_version` constraint comparator, the `solcx` registry, the
environment, `solc_exists`) are passed in as parameters, exactly at the
interface the Python code uses them.
-/

namespace MythrilUtil

/-- Single-quote character `chr 39`. -/
def squote : Char := Char.ofNat 39

/-- Double-quote character `chr 34`. -/
def dquote : Char := Char.ofNat 34

/-- Backslash character `chr 92`. -/
def backslash : Char := Char.ofNat 92

/-- Boolean test that `pat` is a prefix of the second list. -/
def isPrefixList : List Char → List Char → Bool
  | [], _ => true
  | _ :: _, [] => false
  | p :: ps, c :: cs => p == c && isPrefixList ps cs

/-- Python substring containment `pat in l` (the empty pattern is contained
in everything, matching Python). -/
def containsSub (pat : List Char) : List Char → Bool
  | [] => pat.isEmpty
  | c :: rest => isPrefixList pat (c :: rest) || containsSub pat rest

/-- The `todo.find(newline, m.end())` step of the `//` branch of
`remove_comments_strings`: the remainder of the text from the first newline
on (the newline itself is kept, `todo[end:]`), `none` when no newline
follows (Python `end == -1`). -/
def dropToNewline : List Char → Option (List Char)
  | [] => none
  | c :: r => if c = '\n' then some (c :: r) else dropToNewline r

/-- The `todo.find(starSlash, m.end())` step of the `/*` branch: the
remainder of the text after the first `*/` (`todo[end+2:]`), `none` when no
`*/` exists. -/
def dropBlockEnd : List Char → Option (List Char)
  | [] => none
  | c :: r => if c = '*' ∧ r.head? = some '/' then some r.tail else dropBlockEnd r

/-- Helper for `dropQuoteEnd`: scanning with the previous character in
hand, a closing quote preceded by a backslash does not terminate the
literal (the regex `QUOTE_END`/`DQUOTE_END` negative lookbehind). -/
def dropQuoteEndPrev (q prev : Char) : List Char → Option (List Char)
  | [] => none
  | c :: r => if c = q ∧ prev ≠ backslash then some r else dropQuoteEndPrev q c r

/-- The `QUOTE_END.search(todo[m.end():])` step of the quote branch: the
remainder of the text after the first unescaped closing quote `q`
(`todo[m.end()+m2.end():]`), `none` when the literal is unterminated.  A
quote in the very first position closes the literal: the lookbehind sees no
preceding character there. -/
def dropQuoteEnd (q : Char) : List Char → Option (List Char)
  | [] => none
  | c :: r => if c = q then some r else dropQuoteEndPrev q c r

/-- The `while True` loop body of `remove_comments_strings`, with an
explicit fuel argument: every iteration of the Python loop consumes at
least the first character of the current trigger, so fuel equal to the
length of the text (see `stripLoop`) always suffices and the `0, _ :: _`
clause is never reached from `stripLoop`.  Characters before the first
trigger are copied verbatim (`done += todo[:m.start()]`); the four trigger
branches mirror the Python `if`/`elif` chain on `m[0]`. -/
def stripGo : Nat → List Char → List Char
  | _, [] => []
  | 0, _ :: _ => []
  | fuel + 1, c :: rest =>
    if c = '/' ∧ rest.head? = some '/' then
      match dropToNewline rest.tail with
      | none => []
      | some todo => stripGo fuel todo
    else if c = '/' ∧ rest.head? = some '*' then
      ' ' :: (match dropBlockEnd rest.tail with
        | none => []
        | some todo => stripGo fuel todo)
    else if c = squote then
      (match dropQuoteEnd squote rest with
        | none => []
        | some todo => stripGo fuel todo)
    else if c = dquote then
      (match dropQuoteEnd dquote rest with
        | none => []
        | some todo => stripGo fuel todo)
    else c :: stripGo fuel rest

/-- The stripper on a whole text: the spec's `strip(text)` contract, the
loop of `remove_comments_strings` run on the joined text. -/
def stripLoop (l : List Char) : List Char := stripGo l.length l

/-- Python `text.split(newline)`. -/
def splitOnNl : List Char → List (List Char)
  | [] => [[]]
  | c :: r =>
    if c = '\n' then [] :: splitOnNl r
    else
      match splitOnNl r with
      | [] => [[c]]
      | x :: xs => (c :: x) :: xs

/-- `remove_comments_strings(prg)`: the argument is a list of lines which
the Python code first joins with newlines (`"\n".join(prg)`) and then
strips. -/
def remove_comments_strings (prg : List (List Char)) : List Char :=
  stripLoop (List.intercalate ['\n'] prg)

theorem dropToNewline_length_le : ∀ l r, dropToNewline l = some r → r.length ≤ l.length := by
  intro l
  induction l with
  | nil => intro r h; simp [dropToNewline] at h
  | cons c t ih =>
    intro r h
    simp only [dropToNewline] at h
    by_cases hc : c = '\n'
    · rw [if_pos hc] at h
      cases h
      exact le_refl _
    · rw [if_neg hc] at h
      exact Nat.le_succ_of_le (ih r h)

theorem dropBlockEnd_length_le : ∀ l r, dropBlockEnd l = some r → r.length ≤ l.length := by
  intro l
  induction l with
  | nil => intro r h; simp [dropBlockEnd] at h
  | cons c t ih =>
    intro r h
    simp only [dropBlockEnd] at h
    by_cases hc : c = '*' ∧ t.head? = some '/'
    · rw [if_pos hc] at h
      cases h
      calc t.tail.length ≤ t.length := t.length_tail ▸ Nat.sub_le _ _
        _ ≤ (c :: t).length := Nat.le_succ_of_le (le_refl _)
    · rw [if_neg hc] at h
      exact Nat.le_succ_of_le (ih r h)

theorem dropQuoteEndPrev_length_le :
    ∀ q p l r, dropQuoteEndPrev q p l = some r → r.length ≤ l.length := by
  intro q p l
  induction l generalizing p with
  | nil => intro r h; simp [dropQuoteEndPrev] at h
  | cons c t ih =>
    intro r h
    simp only [dropQuoteEndPrev] at h
    by_cases hc : c = q ∧ p ≠ backslash
    · rw [if_pos hc] at h
      cases h
      exact Nat.le_succ_of_le (le_refl _)
    · rw [if_neg hc] at h
      exact Nat.le_succ_of_le (ih c r h)

theorem dropQuoteEnd_length_le : ∀ q l r, dropQuoteEnd q l = some r → r.length ≤ l.length := by
  intro q l r h
  cases l with
  | nil => simp [dropQuoteEnd] at h
  | cons c t =>
    simp only [dropQuoteEnd] at h
    by_cases hc : c = q
    · rw [if_pos hc] at h
      cases h
      exact Nat.le_succ_of_le (le_refl _)
    · rw [if_neg hc] at h
      exact Nat.le_succ_of_le (dropQuoteEndPrev_length_le q c t r h)

theorem stripGo_fuel_irrel :
    ∀ f g l, l.length ≤ f → l.length ≤ g → stripGo f l = stripGo g l := by
  intro f
  induction f with
  | zero =>
    intro g l hf _
    have : l = [] := List.length_eq_zero.mp (Nat.le_zero.mp hf)
    subst this
    cases g <;> rfl
  | succ f ih =>
    intro g l hf hg
    cases l with
    | nil => cases g <;> rfl
    | cons c rest =>
      cases g with
      | zero => exact absurd hg (by simp)
      | succ g =>
        have hrf : rest.length ≤ f := Nat.succ_le_succ_iff.mp hf
        have hrg : rest.length ≤ g := Nat.succ_le_succ_iff.mp hg
        simp only [stripGo]
        by_cases h1 : c = '/' ∧ rest.head? = some '/'
        · rw [if_pos h1, if_pos h1]
          cases hd : dropToNewline rest.tail with
          | none => rfl
          | some todo =>
            have h1d := dropToNewline_length_le _ _ hd
            have ht : rest.tail.length ≤ rest.length := rest.length_tail ▸ Nat.sub_le _ _
            exact ih g todo (le_trans h1d (le_trans ht hrf)) (le_trans h1d (le_trans ht hrg))
        · rw [if_neg h1, if_neg h1]
          by_cases h2 : c = '/' ∧ rest.head? = some '*'
          · rw [if_pos h2, if_pos h2]
            cases hd : dropBlockEnd rest.tail with
            | none => rfl
            | some todo =>
              have h1d := dropBlockEnd_length_le _ _ hd
              have ht : rest.tail.length ≤ rest.length := rest.length_tail ▸ Nat.sub_le _ _
              have := ih g todo (le_trans h1d (le_trans ht hrf)) (le_trans h1d (le_trans ht hrg))
              simp [this]
          · rw [if_neg h2, if_neg h2]
            by_cases h3 : c = squote
            · rw [if_pos h3, if_pos h3]
              cases hd : dropQuoteEnd squote rest with
              | none => rfl
              | some todo =>
                have h1d := dropQuoteEnd_length_le _ _ _ hd
                exact ih g todo (le_trans h1d hrf) (le_trans h1d hrg)
            · rw [if_neg h3, if_neg h3]
              by_cases h4 : c = dquote
              · rw [if_pos h4, if_pos h4]
                cases hd : dropQuoteEnd dquote rest with
                | none => rfl
                | some todo =>
                  have h1d := dropQuoteEnd_length_le _ _ _ hd
                  exact ih g todo (le_trans h1d hrf) (le_trans h1d hrg)
              · rw [if_neg h4, if_neg h4]
                rw [ih g rest hrf hrg]

theorem stripLoop_cons_default (c : Char) (rest : List Char)
    (h1 : ¬(c = '/' ∧ rest.head? = some '/'))
    (h2 : ¬(c = '/' ∧ rest.head? = some '*'))
    (h3 : c ≠ squote) (h4 : c ≠ dquote) :
    stripLoop (c :: rest) = c :: stripLoop rest := by
  show stripGo (rest.length + 1) (c :: rest) = c :: stripGo rest.length rest
  simp only [stripGo, if_neg h1, if_neg h2, if_neg h3, if_neg h4]

/-- Whitespace skipped by pyparsing elements between tokens
(`ParserElement.DEFAULT_WHITE_CHARS = " \n\t\r"`). -/
def isPyWs (c : Char) : Bool := c = ' ' || c = '\n' || c = '\t' || c = '\r'

/-- The character class of the regex `\s` used inside the version pattern
of `parse_pragma` (space, tab, newline, carriage return, vertical tab,
form feed). -/
def isReWs (c : Char) : Bool :=
  c = ' ' || c = '\t' || c = '\n' || c = '\r' || c = Char.ofNat 11 || c = Char.ofNat 12

/-- Python `str.expandtabs()` (tab size 8), applied by pyparsing's
`parseString` before matching; newline and carriage return reset the
column. -/
def expandTabsFrom (col : Nat) : List Char → List Char
  | [] => []
  | c :: r =>
    if c = '\t' then
      List.replicate (8 - col % 8) ' ' ++ expandTabsFrom (col + (8 - col % 8)) r
    else if c = '\n' ∨ c = '\r' then c :: expandTabsFrom 0 r
    else c :: expandTabsFrom (col + 1) r

/-- pyparsing `Word(cs)`: skip leading whitespace, then take the maximal
nonempty run of characters from `cs`; fails on an empty run. -/
def pyWord (cs : List Char) (l : List Char) : Option (List Char × List Char) :=
  let s := l.dropWhile isPyWs
  let run := s.takeWhile (fun c => cs.contains c)
  if run.isEmpty then none else some (run, s.drop run.length)

/-- pyparsing `Combine(Word(opc) + Optional(Word("=")))`: skip leading
whitespace (the `Combine` wrapper still skips), then a maximal run of
`opc` followed by an immediately adjacent (no whitespace) maximal run of
`=`, joined into one token. -/
def matchGtLt (opc : Char) (l : List Char) : Option (List Char × List Char) :=
  let s := l.dropWhile isPyWs
  let run := s.takeWhile (fun c => c == opc)
  if run.isEmpty then none
  else
    let r := s.drop run.length
    let eqs := r.takeWhile (fun c => c == '=')
    some (run ++ eqs, r.drop eqs.length)

/-- The `inequality` alternation of `parse_pragma` without its outer
`Optional`: `eq | (Combine(gtr + Optional(eq)) | Combine(lt + Optional(eq)))`,
alternatives tried in this order (pyparsing `MatchFirst`). -/
def matchIneq (l : List Char) : Option (List Char × List Char) :=
  match pyWord ['='] l with
  | some res => some res
  | none =>
    match matchGtLt '>' l with
    | some res => some res
    | none => matchGtLt '<' l

/-- Python `re.match` of the version pattern
`\s*[0-9]+\s*\.\s*[0-9]+\s*(\.\s*[0-9]+)?` at the current position: the
token keeps all matched characters, including internal whitespace and the
trailing `\s*` run when the optional patch group is absent (the group
backtracks to empty but the preceding `\s*` stays consumed). -/
def matchVersionCore (l : List Char) : Option (List Char × List Char) :=
  let (w1, r1) := l.span isReWs
  let (d1, r2) := r1.span Char.isDigit
  if d1.isEmpty then none
  else
    let (w2, r3) := r2.span isReWs
    match r3 with
    | '.' :: r4 =>
      let (w3, r5) := r4.span isReWs
      let (d2, r6) := r5.span Char.isDigit
      if d2.isEmpty then none
      else
        let (w4, r7) := r6.span isReWs
        let base := w1 ++ d1 ++ w2 ++ '.' :: (w3 ++ d2 ++ w4)
        match r7 with
        | '.' :: r8 =>
          let (w5, r9) := r8.span isReWs
          let (d3, r10) := r9.span Char.isDigit
          if d3.isEmpty then some (base, r7) else some (base ++ '.' :: (w5 ++ d3), r10)
        | _ => some (base, r7)
    | _ => none

/-- The pyparsing `Regex` element `version`: skip pyparsing whitespace,
then `re.match` the version pattern. -/
def matchVersionTok (l : List Char) : Option (List Char × List Char) :=
  matchVersionCore (l.dropWhile isPyWs)

/-- The `Optional(max_version)` tail of the grammar, where
`max_version = Optional(inequality + version)` and `inequality` is itself
optional: yields two tokens (operator and version), one token (bare
version), or none.  When an operator matches but no version follows, the
inner `And` fails and the `Optional` backtracks to the empty match. -/
def maxTokens (l : List Char) : List (List Char) :=
  match matchIneq l with
  | some (op, r1) =>
    match matchVersionTok r1 with
    | some (v, _) => [op, v]
    | none => []
  | none =>
    match matchVersionTok l with
    | some (v, _) => [v]
    | none => []

/-- `pragma.parseString(solidity_code)` of `parse_pragma`, as the flat
token list: `Word("pragma") + Word("solidity") + min_version +
Optional(max_version)` with `min_version = Optional(carrot | inequality) +
version`.  `parseString` does not require consuming the whole input, so
trailing text (such as a `;`) is ignored; `none` models the
`ParseException`. -/
def parsePragmaTokens (l : List Char) : Option (List (List Char)) :=
  match pyWord "pragma".data l with
  | none => none
  | some (t1, r1) =>
    match pyWord "solidity".data r1 with
    | none => none
    | some (t2, r2) =>
      match pyWord ['^'] r2 with
      | some (op, r3) =>
        match matchVersionTok r3 with
        | none => none
        | some (v, r4) => some ([t1, t2, op, v] ++ maxTokens r4)
      | none =>
        match matchIneq r2 with
        | some (op, r3) =>
          match matchVersionTok r3 with
          | none => none
          | some (v, r4) => some ([t1, t2, op, v] ++ maxTokens r4)
        | none =>
          match matchVersionTok r2 with
          | none => none
          | some (v, r4) => some ([t1, t2, v] ++ maxTokens r4)

/-- The dictionary built and returned by `parse_pragma`. -/
structure PragmaDict where
  min_carrot : List Char
  min_inequality : List Char
  min_version : List Char
  max_inequality : Option (List Char)
  max_version : Option (List Char)
deriving DecidableEq

/-- The operator list `[">", "<", ">=", "<=", "="]` of `parse_pragma`. -/
def opStrings : List (List Char) := [">".data, "<".data, ">=".data, "<=".data, "=".data]

/-- The result dictionary that `parse_pragma` builds from the flat token
list by position, exactly as the Python indexes `result[2]`..`result[5]`.
`result.getD k []` models `result[k]`; the default is never reached on the
paths the Python code takes (`result[3]` is read only when an operator
token is present, `result[4]`/`result[5]` only under the length guards). -/
def mkPragmaDict (result : List (List Char)) : PragmaDict :=
  let r2 := result.getD 2 []
  let min_inequality := if opStrings.contains r2 then r2 else []
  let min_carrot := if r2 = "^".data then r2 else []
  let min_version :=
    if !min_carrot.isEmpty || !min_inequality.isEmpty then result.getD 3 [] else r2
  ⟨min_carrot, min_inequality, min_version,
    if 4 < result.length then some (result.getD 4 []) else none,
    if 5 < result.length then some (result.getD 5 []) else none⟩

/-- `parse_pragma(solidity_code)`: run the pyparsing grammar (pyparsing
first expands tabs) and build the result dictionary; `none` models the
propagated `ParseException`. -/
def parse_pragma (l : List Char) : Option PragmaDict :=
  (parsePragmaTokens (expandTabsFrom 0 l)).map mkPragmaDict

example : parsePragmaTokens "pragma solidity >=0.4.21<0.6.0;".data =
    some ["pragma".data, "solidity".data, ">=".data, "0.4.21".data, "<".data, "0.6.0".data] := by
  decide

example : parsePragmaTokens "pragma solidity 0.4.21<0.6.0".data =
    some ["pragma".data, "solidity".data, "0.4.21".data, "<".data, "0.6.0".data] := by
  decide

example : parsePragmaTokens "pragma solidity ^0.4.21<0.6.0".data =
    some ["pragma".data, "solidity".data, "^".data, "0.4.21".data, "<".data, "0.6.0".data] := by
  decide

example : parsePragmaTokens "pragma solidity ^0.5.0".data =
    some ["pragma".data, "solidity".data, "^".data, "0.5.0".data] := by
  decide

deriving instance DecidableEq for Except

/-- The hard-coded excluded version string `"0.5.17"`. -/
def excl0517 : List Char := "0.5.17".data

/-- The resolution loop of `extract_version`
(`for version in all_versions: ...`): `sat v` models
`semver.Version(str(version)) in version_constraint` (the external
`semantic_version` library, abstracted as a predicate on the version
string), and a satisfying version whose string contains `0.5.17` is
skipped with `continue`.  Falling off the loop returns `None`. -/
def resolveLoop (sat : List Char → Bool) : List (List Char) → Option (List Char)
  | [] => none
  | v :: rest =>
    if sat v then
      if containsSub excl0517 v then resolveLoop sat rest else some v
    else resolveLoop sat rest

/-- `s.replace(" ", "").replace("\t", "")` applied by `extract_version` to
the min/max version strings. -/
def cleanVer (s : List Char) : List Char := s.filter (fun c => !(c == ' ' || c == '\t'))

/-- Python f-string interpolation of an optional string: `None` prints as
`"None"`. -/
def pyOptFormat (o : Option (List Char)) : List Char :=
  match o with
  | some s => s
  | none => "None".data

/-- The `version_spec` expression of `extract_version`:
`f"{min_inequality}{min_version},{max_inequality}{max_version}" if
max_version else min_version`, on the whitespace-cleaned version strings;
the condition is Python truthiness of the cleaned `max_version` (absent or
empty both fall to the `else`). -/
def buildVersionSpec (d : PragmaDict) : List Char :=
  let minv := cleanVer d.min_version
  match d.max_version with
  | none => minv
  | some mv0 =>
    let mv := cleanVer mv0
    if mv.isEmpty then minv
    else d.min_inequality ++ minv ++ ',' :: (pyOptFormat d.max_inequality ++ mv)

/-- The search key `"pragma solidity"`. -/
def pragmaSolidityPat : List Char := "pragma solidity".data

/-- Python `str.rstrip()` (default whitespace). -/
def rstripPy (l : List Char) : List Char := (l.reverse.dropWhile isReWs).reverse

/-- The `if version_line[-1] == ";"` trailing-semicolon strip of
`extract_version` (the line is never empty there, since it contains
`pragma solidity`). -/
def pyStripSemi (l : List Char) : List Char :=
  match l.getLast? with
  | some c => if c = ';' then l.dropLast else l
  | none => l

/-- Python `l.find(pat)`: index of the first occurrence, `none` for -1. -/
def findSubIdx (pat : List Char) : List Char → Option Nat
  | [] => if pat.isEmpty then some 0 else none
  | c :: r =>
    if isPrefixList pat (c :: r) then some 0
    else (findSubIdx pat r).map (· + 1)

/-- `version_line[version_line.find("pragma"):]`: slice from the first
occurrence of `pat`; when `pat` is absent Python's `find` returns -1 and
the slice keeps only the last character (unreachable in `extract_version`,
which first checks that the line contains `pragma solidity`). -/
def pyFindSlice (pat l : List Char) : List Char :=
  match findSubIdx pat l with
  | some i => l.drop i
  | none => l.drop (l.length - 1)

/-- `extract_version(file)`.  `specSat spec v` models
`semver.Version(str(v)) in semver.SimpleSpec(spec)` of the external
`semantic_version` library; `registry` models the module-level
`all_versions` list (as the version strings `str(version)`).
`Except.error ()` models the `ParseException` that `parse_pragma`
propagates; the `assert` always holds on the found line and is not
modelled as a failure. -/
def extract_version (specSat : List Char → List Char → Bool)
    (registry : List (List Char)) (file : Option (List Char)) :
    Except Unit (Option (List Char)) :=
  match file with
  | none => Except.ok none
  | some f =>
    match (splitOnNl (remove_comments_strings (splitOnNl f))).find?
        (fun line => containsSub pragmaSolidityPat line) with
    | none => Except.ok none
    | some line =>
      match parse_pragma (pyFindSlice "pragma".data (pyStripSemi (rstripPy line))) with
      | none => Except.error ()
      | some d => Except.ok (resolveLoop (specSat (buildVersionSpec d)) registry)

/-- `os.environ.get("SOLC") or "solc"`: the Python `or` falls back to
`"solc"` when the variable is unset or set to the empty (falsy) string. -/
def solcDefaultBinary (env : Option (List Char)) : List Char :=
  match env with
  | some s => if s.isEmpty then "solc".data else s
  | none => "solc".data

/-- `extract_binary(file)`, on the already-read file contents.  `env`
models `os.environ.get("SOLC")` and `solcExistsF` the external
`solc_exists` installer (which returns the binary path for a resolved
version). -/
def extract_binary (specSat : List Char → List Char → Bool)
    (registry : List (List Char)) (env : Option (List Char))
    (solcExistsF : List Char → List Char) (file_data : List Char) :
    Except Unit (List Char × Option (List Char)) :=
  match extract_version specSat registry (some file_data) with
  | Except.error e => Except.error e
  | Except.ok none => Except.ok (solcDefaultBinary env, none)
  | Except.ok (some v) => Except.ok (solcExistsF v, some v)

example : stripLoop "abc/*xyz".data = "abc ".data := by decide

example : stripLoop [squote, 'a', backslash, squote, 'b', squote] = [] := by decide

example : stripLoop "abc".data = "abc".data := by decide

example : extract_version (fun spec v => spec == v)
    ["0.7.6".data, "0.8.0".data, "0.8.1".data]
    (some "pragma solidity ^0.8.0;\nrest".data) = Except.ok (some "0.8.0".data) := by decide

example : extract_version (fun _ _ => true) [] (some "no pr agma here".data) =
    Except.ok none := by decide

/-- The trigger pattern `//`. -/
def slashSlash : List Char := ['/', '/']

/-- The trigger pattern `/*`. -/
def slashStar : List Char := ['/', '*']

/-- The block-comment closer `*/`. -/
def starSlash : List Char := ['*', '/']

theorem containsSub_cons_false {pat : List Char} {c : Char} {rest : List Char}
    (h : containsSub pat (c :: rest) = false) :
    isPrefixList pat (c :: rest) = false ∧ containsSub pat rest = false := by
  simp only [containsSub, Bool.or_eq_false_iff] at h
  exact h

theorem dropBlockEnd_eq_none (l : List Char) (h : containsSub starSlash l = false) :
    dropBlockEnd l = none := by
  induction l with
  | nil => rfl
  | cons c r ih =>
    obtain ⟨hp, hr⟩ := containsSub_cons_false h
    simp only [dropBlockEnd]
    rw [if_neg, ih hr]
    rintro ⟨rfl, hh⟩
    cases r with
    | nil => simp at hh
    | cons d t =>
      simp only [List.head?_cons, Option.some.injEq] at hh
      subst hh
      simp [starSlash, isPrefixList] at hp

theorem stripLoop_block_opener (post : List Char) (h : dropBlockEnd post = none) :
    stripLoop ('/' :: '*' :: post) = [' '] := by
  show (' ' :: match dropBlockEnd post with
    | none => []
    | some todo => stripGo (post.length + 1) todo) = [' ']
  rw [h]

/-- C1: for every constraint-satisfaction predicate and every registry
sequence, the resolution loop of `extract_version` returns exactly the
first registry element, in the given order, that satisfies the constraint
and is not the excluded `0.5.17` version; when no such element exists the
result is `none`. -/
theorem resolveLoop_first_satisfying (sat : List Char → Bool) (registry : List (List Char)) :
    resolveLoop sat registry =
      registry.find? (fun v => sat v && !containsSub excl0517 v) := by
  induction registry with
  | nil => rfl
  | cons v rest ih =>
    simp only [resolveLoop, List.find?]
    cases hs : sat v
    · simp [hs, ih]
    · cases hc : containsSub excl0517 v
      · simp [hs, hc]
      · simp [hs, hc, ih]

/-- C2: the resolution loop of `extract_version` never returns a version
whose string contains `0.5.17`, for every satisfaction predicate and every
registry. -/
theorem resolveLoop_never_0517 (sat : List Char → Bool) (registry : List (List Char))
    (v : List Char) (h : resolveLoop sat registry = some v) :
    containsSub excl0517 v = false := by
  induction registry with
  | nil => simp [resolveLoop] at h
  | cons w rest ih =>
    simp only [resolveLoop] at h
    by_cases hs : sat w = true
    · rw [if_pos hs] at h
      by_cases hc : containsSub excl0517 w = true
      · rw [if_pos hc] at h
        exact ih h
      · rw [if_neg hc] at h
        cases h
        simpa using hc
    · rw [if_neg hs] at h
      exact ih h

theorem resolveLoop_never_0517_witness :
    resolveLoop (fun _ => true) ["0.5.17".data, "0.8.0".data] = some "0.8.0".data ∧
    containsSub excl0517 "0.8.0".data = false :=
  ⟨by decide,
    resolveLoop_never_0517 (fun _ => true) ["0.5.17".data, "0.8.0".data] "0.8.0".data (by decide)⟩

/-- C3 counterexample: on the input `abc/*xyz`, whose block comment is
never closed, the stripper does not return just the verbatim prefix
`abc` — it appends the single replacement space even though the comment is
unterminated, yielding `abc ` (with a trailing space). -/
theorem strip_unterminated_block_cex :
    stripLoop "abc/*xyz".data = "abc ".data ∧ "abc ".data ≠ "abc".data :=
  ⟨by decide, by decide⟩

/-- C3 (amended): for every text consisting of trigger-free verbatim text,
then a block-comment opener `/*` with no closing `*/` after it, the
stripper stops scanning at that opener and the output is the verbatim
prefix followed by one replacement space: the remainder is discarded but
the single space standing for the removed comment is still inserted. -/
theorem strip_unterminated_block_appends_space (pre post : List Char)
    (h1 : containsSub slashSlash (pre ++ ['/']) = false)
    (h2 : containsSub slashStar (pre ++ ['/']) = false)
    (h3 : containsSub [squote] (pre ++ ['/']) = false)
    (h4 : containsSub [dquote] (pre ++ ['/']) = false)
    (h5 : containsSub starSlash post = false) :
    stripLoop (pre ++ '/' :: '*' :: post) = pre ++ [' '] := by
  induction pre with
  | nil => simpa using stripLoop_block_opener post (dropBlockEnd_eq_none post h5)
  | cons c pre ih =>
    simp only [List.cons_append] at h1 h2 h3 h4
    obtain ⟨hp1, hr1⟩ := containsSub_cons_false h1
    obtain ⟨hp2, hr2⟩ := containsSub_cons_false h2
    obtain ⟨hp3, hr3⟩ := containsSub_cons_false h3
    obtain ⟨hp4, hr4⟩ := containsSub_cons_false h4
    have g1 : ¬(c = '/' ∧ (pre ++ '/' :: '*' :: post).head? = some '/') := by
      rintro ⟨rfl, hh⟩
      cases pre with
      | nil => simp [slashSlash, isPrefixList] at hp1
      | cons d t =>
        simp only [List.cons_append, List.head?_cons, Option.some.injEq] at hh
        subst hh
        simp [slashSlash, isPrefixList] at hp1
    have g2 : ¬(c = '/' ∧ (pre ++ '/' :: '*' :: post).head? = some '*') := by
      rintro ⟨rfl, hh⟩
      cases pre with
      | nil =>
        rw [List.nil_append, List.head?_cons] at hh
        exact absurd (Option.some.inj hh) (by decide)
      | cons d t =>
        simp only [List.cons_append, List.head?_cons, Option.some.injEq] at hh
        subst hh
        simp [slashStar, isPrefixList] at hp2
    have g3 : c ≠ squote := by
      intro hq
      simp [isPrefixList, hq] at hp3
    have g4 : c ≠ dquote := by
      intro hq
      simp [isPrefixList, hq] at hp4
    rw [List.cons_append, stripLoop_cons_default c (pre ++ '/' :: '*' :: post) g1 g2 g3 g4,
      ih hr1 hr2 hr3 hr4, List.cons_append]

theorem strip_unterminated_block_appends_space_witness :
    (containsSub slashSlash ("abc".data ++ ['/']) = false ∧
      containsSub slashStar ("abc".data ++ ['/']) = false ∧
      containsSub [squote] ("abc".data ++ ['/']) = false ∧
      containsSub [dquote] ("abc".data ++ ['/']) = false ∧
      containsSub starSlash "xyz".data = false) ∧
    stripLoop ("abc".data ++ '/' :: '*' :: "xyz".data) = "abc".data ++ [' '] :=
  ⟨⟨by decide, by decide, by decide, by decide, by decide⟩,
    strip_unterminated_block_appends_space "abc".data "xyz".data
      (by decide) (by decide) (by decide) (by decide) (by decide)⟩

/-- C7: on every text containing none of the four trigger patterns `//`,
`/*`, single quote, double quote, the stripper is the identity. -/
theorem strip_identity_no_triggers (l : List Char)
    (h1 : containsSub slashSlash l = false) (h2 : containsSub slashStar l = false)
    (h3 : containsSub [squote] l = false) (h4 : containsSub [dquote] l = false) :
    stripLoop l = l := by
  induction l with
  | nil => rfl
  | cons c rest ih =>
    obtain ⟨hp1, hr1⟩ := containsSub_cons_false h1
    obtain ⟨hp2, hr2⟩ := containsSub_cons_false h2
    obtain ⟨hp3, hr3⟩ := containsSub_cons_false h3
    obtain ⟨hp4, hr4⟩ := containsSub_cons_false h4
    have g1 : ¬(c = '/' ∧ rest.head? = some '/') := by
      rintro ⟨rfl, hh⟩
      cases rest with
      | nil => simp at hh
      | cons d t =>
        simp only [List.head?_cons, Option.some.injEq] at hh
        subst hh
        simp [slashSlash, isPrefixList] at hp1
    have g2 : ¬(c = '/' ∧ rest.head? = some '*') := by
      rintro ⟨rfl, hh⟩
      cases rest with
      | nil => simp at hh
      | cons d t =>
        simp only [List.head?_cons, Option.some.injEq] at hh
        subst hh
        simp [slashStar, isPrefixList] at hp2
    have g3 : c ≠ squote := by
      intro hq
      simp [isPrefixList, hq] at hp3
    have g4 : c ≠ dquote := by
      intro hq
      simp [isPrefixList, hq] at hp4
    rw [stripLoop_cons_default c rest g1 g2 g3 g4, ih hr1 hr2 hr3 hr4]

theorem strip_identity_no_triggers_witness :
    (containsSub slashSlash "abc def".data = false ∧
      containsSub slashStar "abc def".data = false ∧
      containsSub [squote] "abc def".data = false ∧
      containsSub [dquote] "abc def".data = false) ∧
    stripLoop "abc def".data = "abc def".data :=
  ⟨⟨by decide, by decide, by decide, by decide⟩,
    strip_identity_no_triggers "abc def".data (by decide) (by decide) (by decide) (by decide)⟩

/-- C8: stripping the six-character input quote, `a`, backslash, quote,
`b`, quote treats the backslash-escaped quote as not terminating the
literal, so the whole input is one string literal and is removed entirely,
producing the empty text. -/
theorem strip_escaped_quote_removes_literal :
    stripLoop [squote, 'a', backslash, squote, 'b', squote] = [] := by decide

theorem mkPragmaDict_max_inequality (result : List (List Char)) :
    (mkPragmaDict result).max_inequality =
      (if 4 < result.length then some (result.getD 4 []) else none) := rfl

theorem mkPragmaDict_max_version (result : List (List Char)) :
    (mkPragmaDict result).max_version =
      (if 5 < result.length then some (result.getD 5 []) else none) := rfl

theorem mkPragmaDict_carrot_inequality (result : List (List Char))
    (hc : (mkPragmaDict result).min_carrot = "^".data) :
    (mkPragmaDict result).min_inequality = [] := by
  have hmc : (mkPragmaDict result).min_carrot =
      (if result.getD 2 [] = "^".data then result.getD 2 [] else []) := rfl
  have hmi : (mkPragmaDict result).min_inequality =
      (if opStrings.contains (result.getD 2 []) then result.getD 2 [] else []) := rfl
  rw [hmc] at hc
  rw [hmi]
  by_cases h2 : result.getD 2 [] = "^".data
  · rw [h2]
    rw [if_neg (by decide)]
  · rw [if_neg h2] at hc
    exact absurd hc (by decide)

/-- C6: parsing the line `pragma solidity >=0.4.21<0.6.0;` yields the
constraint with empty caret, min operator `>=`, min version `0.4.21`, max
operator `<`, and max version `0.6.0`. -/
theorem parse_pragma_range_example :
    parse_pragma "pragma solidity >=0.4.21<0.6.0;".data =
      some ⟨[], ">=".data, "0.4.21".data, some "<".data, some "0.6.0".data⟩ := by decide

/-- C5 counterexample: the line `pragma solidity 0.4.21<0.6.0` (no minimum
operator) is accepted by the pragma parser but parses to five tokens, so
the positional indexing puts the version string `0.6.0` into the
max-operator field while the max-version field stays `None`: the operator
field is present and the version field absent, refuting the pairing
invariant. -/
theorem pragma_pairing_cex :
    (parse_pragma "pragma solidity 0.4.21<0.6.0".data).map
      (fun d => (d.max_inequality, d.max_version)) =
      some (some "0.6.0".data, none) := by decide

/-- C5 (amended): for every line accepted by the pragma parser, if the max
version field is present then the max operator field is present.  The
converse direction of the claimed invariant fails on five-token parses
(see the counterexample). -/
theorem pragma_max_version_implies_operator (l : List Char) (d : PragmaDict)
    (h : parse_pragma l = some d) (hv : d.max_version.isSome = true) :
    d.max_inequality.isSome = true := by
  obtain ⟨result, hr, rfl⟩ := Option.map_eq_some'.mp h
  rw [mkPragmaDict_max_version] at hv
  rw [mkPragmaDict_max_inequality]
  by_cases h5 : 5 < result.length
  · rw [if_pos (by omega : 4 < result.length)]
    rfl
  · rw [if_neg h5] at hv
    exact absurd hv (by decide)

/-- The parse result of `pragma solidity >=0.4.21 <0.6.0`, used by the
witness of the pairing direction that holds. -/
def rangeDict : PragmaDict := ⟨[], ">=".data, "0.4.21".data, some "<".data, some "0.6.0".data⟩

theorem pragma_max_version_implies_operator_witness :
    parse_pragma "pragma solidity >=0.4.21 <0.6.0".data = some rangeDict ∧
    rangeDict.max_version.isSome = true ∧
    rangeDict.max_inequality.isSome = true :=
  ⟨by decide, by decide,
    pragma_max_version_implies_operator "pragma solidity >=0.4.21 <0.6.0".data rangeDict
      (by decide) (by decide)⟩

/-- C4 counterexample: the line `pragma solidity ^0.4.21<0.6.0` parses
with caret prefix `^` and max version present, but the constraint
expression built for the comparator is `0.4.21,<0.6.0`: the parsed caret
does not appear in front of the min version, so the expression differs
from the claimed `^0.4.21,<0.6.0`. -/
theorem version_spec_caret_dropped_cex :
    (parse_pragma "pragma solidity ^0.4.21<0.6.0".data).map
      (fun d => (d.min_carrot, buildVersionSpec d)) =
      some ("^".data, "0.4.21,<0.6.0".data) ∧
    "0.4.21,<0.6.0".data ≠ "^0.4.21,<0.6.0".data := ⟨by decide, by decide⟩

/-- C4 (amended): for every parsed pragma whose max version is present
(and nonempty after whitespace cleaning — the Python truthiness test), the
constraint expression handed to the comparator is
`<min_inequality><min_version>,<max_op><max_version>` over the cleaned
version strings, where `min_inequality` is the parsed comparison operator
or empty; a parsed caret prefix is not included in the expression: when
the prefix was `^` the operator slot in front of min version is empty. -/
theorem version_spec_shape_caret_omitted (l : List Char) (d : PragmaDict) (mv : List Char)
    (h : parse_pragma l = some d) (hm : d.max_version = some mv)
    (hne : (cleanVer mv).isEmpty = false) :
    buildVersionSpec d =
      d.min_inequality ++ cleanVer d.min_version ++ ',' ::
        (pyOptFormat d.max_inequality ++ cleanVer mv) ∧
    (d.min_carrot = "^".data → d.min_inequality = []) := by
  constructor
  · unfold buildVersionSpec
    rw [hm]
    simp [hne]
  · intro hc
    obtain ⟨result, hr, rfl⟩ := Option.map_eq_some'.mp h
    exact mkPragmaDict_carrot_inequality result hc

/-- The parse result of `pragma solidity ^0.4.21<0.6.0`, used by the
witness of the amended expression-shape statement. -/
def caretDict : PragmaDict := ⟨"^".data, [], "0.4.21".data, some "<".data, some "0.6.0".data⟩

theorem version_spec_shape_caret_omitted_witness :
    parse_pragma "pragma solidity ^0.4.21<0.6.0".data = some caretDict ∧
    caretDict.max_version = some "0.6.0".data ∧
    (cleanVer "0.6.0".data).isEmpty = false ∧
    (buildVersionSpec caretDict =
      caretDict.min_inequality ++ cleanVer caretDict.min_version ++ ',' ::
        (pyOptFormat caretDict.max_inequality ++ cleanVer "0.6.0".data) ∧
      (caretDict.min_carrot = "^".data → caretDict.min_inequality = [])) :=
  ⟨by decide, by decide, by decide,
    version_spec_shape_caret_omitted "pragma solidity ^0.4.21<0.6.0".data caretDict
      "0.6.0".data (by decide) (by decide) (by decide)⟩

/-- C10: `extract_version` called with absent input (`None`) returns
absence immediately, for every satisfaction predicate and every registry:
absence of input is handled like absence of a pragma. -/
theorem extract_version_none_input (specSat : List Char → List Char → Bool)
    (registry : List (List Char)) :
    extract_version specSat registry none = Except.ok none := rfl

/-- C9 (amended): on every source text whose stripped form contains no
line with the substring `pragma solidity`, `extract_version` returns
absence — independently of the constraint predicate and the registry, so
no parsing or resolution can influence the result — and `extract_binary`
returns the pair of the default binary and absence, where the default is
the value of `SOLC` when that is set to a non-empty string and `"solc"`
otherwise (Python's `or` falls back on the empty string too, see the
counterexample). -/
theorem no_pragma_returns_absent (specSat : List Char → List Char → Bool)
    (registry : List (List Char)) (env : Option (List Char))
    (solcExistsF : List Char → List Char) (f : List Char)
    (h : ∀ line ∈ splitOnNl (remove_comments_strings (splitOnNl f)),
      containsSub pragmaSolidityPat line = false) :
    extract_version specSat registry (some f) = Except.ok none ∧
    extract_binary specSat registry env solcExistsF f =
      Except.ok (solcDefaultBinary env, none) := by
  have hfind : (splitOnNl (remove_comments_strings (splitOnNl f))).find?
      (fun line => containsSub pragmaSolidityPat line) = none := by
    rw [List.find?_eq_none]
    intro x hx
    simp [h x hx]
  have h1 : extract_version specSat registry (some f) = Except.ok none := by
    show (match (splitOnNl (remove_comments_strings (splitOnNl f))).find?
        (fun line => containsSub pragmaSolidityPat line) with
      | none => Except.ok none
      | some line =>
        match parse_pragma (pyFindSlice "pragma".data (pyStripSemi (rstripPy line))) with
        | none => Except.error ()
        | some d => Except.ok (resolveLoop (specSat (buildVersionSpec d)) registry)) =
      Except.ok none
    rw [hfind]
  refine ⟨h1, ?_⟩
  unfold extract_binary
  rw [h1]

theorem no_pragma_returns_absent_witness :
    (∀ line ∈ splitOnNl (remove_comments_strings (splitOnNl "contract C".data)),
      containsSub pragmaSolidityPat line = false) ∧
    (extract_version (fun _ _ => false) [] (some "contract C".data) = Except.ok none ∧
      extract_binary (fun _ _ => false) [] (some "mysolc".data) (fun v => v)
        "contract C".data = Except.ok (solcDefaultBinary (some "mysolc".data), none)) :=
  ⟨by decide,
    no_pragma_returns_absent (fun _ _ => false) [] (some "mysolc".data) (fun v => v)
      "contract C".data (by decide)⟩

/-- C9 counterexample: with the `SOLC` environment variable set to the
empty string — set, but falsy in Python — `extract_binary` on a
pragma-free source returns the default binary `solc` rather than the set
value of the variable, because `os.environ.get("SOLC") or "solc"` falls
back on any falsy value; so the result is not "value of `SOLC` if set". -/
theorem extract_binary_empty_solc_cex :
    extract_binary (fun _ _ => false) [] (some []) (fun v => v) "contract C".data =
      Except.ok ("solc".data, none) ∧
    ("solc".data : List Char) ≠ [] := ⟨by decide, by decide⟩

end MythrilUtil
